import Mathlib

/-!
Verification of the delivery-tracking and assignment subsystem of a
milk-delivery management application.

The embedding models the two controller files (`staff` controller and
`dashboard` controller) and the `DailyDelivery` mongoose model as pure
functions over an explicit `State`:

* MongoDB collections become lists kept in `State`; `findById` /
  `findOne` become `List.find?` on the id field (Mongo's `_id` is a
  primary key, so documents are updated by mapping over the list and
  replacing the entry with the matching id).
* Calendar days are modelled as natural numbers ("days since epoch"),
  already normalized to midnight — the mongoose pre-save hook normalizes
  every stored `date` to midnight, and every query uses the half-open
  range `[today, today + 1)`, which we keep in that range form.
* `findOneAndUpdate` with `upsert: true` is modelled by updating the
  first document matching the filter, falling back to an insert when
  none matches; the unique compound index `(clientId, date, shift)` of
  `dailyDeliverySchema` is modelled by rejecting any write whose result
  would contain two records sharing that key (`hasDupKey`).
* Delivery statuses are kept as strings, exactly as stored and compared
  by the source (`"Delivered"` / `"Not Delivered"` per the schema enum),
  because two aggregation pipelines compare against different literals.
* Error responses are collapsed to an error kind (`ApiError`); the
  HTTP-layer message strings are irrelevant to the claims.
-/

/-- Error kinds of the controllers: 400 missing/invalid field, 404 entity
absent, 400 relationship conflicts, and the storage duplicate-key fault
surfaced as a 500. -/
inductive ApiError where
  | invalidInput
  | notFound
  | conflict
  | duplicateKey
  deriving DecidableEq, Repr

/-- One entry of a client's embedded append-only delivery history
(`client.deliveryHistory.push({date, status, quantity, reason?})`). -/
structure HistoryEntry where
  date : Nat
  status : String
  quantity : Nat
  reason : Option String
  deriving DecidableEq, Repr

/-- The fields of the `Client` document used by the delivery core. -/
structure Client where
  id : Nat
  timeShift : String
  quantity : Nat
  pricePerLitre : Nat
  deliveryStatus : String
  deliveryNotes : Option String
  deliveryHistory : List HistoryEntry
  assignedStaff : Option Nat
  deriving DecidableEq, Repr

/-- The fields of the `Staff` document used by the delivery core. -/
structure Staff where
  id : Nat
  assignedClients : List Nat
  shift : String
  deriving DecidableEq, Repr

/-- A `StaffSession` document: staff `staffId` chose `shift` on day `date`. -/
structure ShiftSession where
  staffId : Nat
  date : Nat
  shift : String
  deriving DecidableEq, Repr

/-- A `DailyDelivery` document (model file `DailyDelivery.ts`). -/
structure DeliveryRecord where
  clientId : Nat
  staffId : Nat
  date : Nat
  shift : String
  deliveryStatus : String
  quantity : Nat
  price : Nat
  notes : Option String
  deriving DecidableEq, Repr

/-- The database state seen by the core: the four collections. -/
structure State where
  staffs : List Staff
  clients : List Client
  sessions : List ShiftSession
  deliveries : List DeliveryRecord
  deriving DecidableEq, Repr

/-- Replace, in a collection, every document whose key equals the key of
`a` by `a` (Mongo `_id` is unique, so at most one document is replaced in
any real state; `save()` on a fetched document writes it back by id). -/
def setById {α : Type} (key : α → Nat) (l : List α) (a : α) : List α :=
  l.map (fun x => if key x = key a then a else x)

/-- The unique-index key of `dailyDeliverySchema`:
`index({clientId: 1, date: 1, shift: 1}, {unique: true})`. -/
def sameKey (r₁ r₂ : DeliveryRecord) : Bool :=
  r₁.clientId = r₂.clientId && r₁.date = r₂.date && r₁.shift = r₂.shift

/-- Whether two distinct documents of the collection share the unique key —
the situation the compound index forbids. -/
def hasDupKey : List DeliveryRecord → Bool
  | [] => false
  | r :: rest => rest.any (fun x => sameKey x r) || hasDupKey rest

/-- Apply `$set` to the first document matching `filter`, or append `fresh`
when none matches; also return the written document (the `new: true` result
of `findOneAndUpdate`). -/
def upsertCore (filter : DeliveryRecord → Bool) (set : DeliveryRecord → DeliveryRecord)
    (fresh : DeliveryRecord) :
    List DeliveryRecord → List DeliveryRecord × DeliveryRecord
  | [] => ([fresh], fresh)
  | r :: rest =>
    if filter r then (set r :: rest, set r)
    else
      let (l, doc) := upsertCore filter set fresh rest
      (r :: l, doc)

/-- `DailyDelivery.findOneAndUpdate(filter, {$set: ...}, {upsert: true,
new: true})` under the unique `(clientId, date, shift)` index: update the
first document matching `filter` with `set`, or insert `fresh`; fail with
the duplicate-key error if the resulting collection would violate the
index. -/
def upsertDelivery (store : List DeliveryRecord) (filter : DeliveryRecord → Bool)
    (set : DeliveryRecord → DeliveryRecord) (fresh : DeliveryRecord) :
    Except ApiError (List DeliveryRecord × DeliveryRecord) :=
  let (candidate, doc) := upsertCore filter set fresh store
  if hasDupKey candidate then .error .duplicateKey else .ok (candidate, doc)

/-- The `findOneAndUpdate` filter used by both assignment-aware recording
endpoints: `{clientId, staffId, date: {$gte: today, $lt: today+1day}}`.
Note that it does NOT mention the shift. -/
def markFilter (clientId staffId today : Nat) (r : DeliveryRecord) : Bool :=
  r.clientId = clientId && r.staffId = staffId &&
    (today ≤ r.date && r.date < today + 1)

/-- `StaffSession.findOneAndUpdate({staffId, date}, {staffId, shift, date},
{upsert: true, new: true})` — the sessions collection has no uniqueness
constraint, so the upsert plainly updates the first match or appends. -/
def upsertSession (staffId today : Nat) (shift : String) :
    List ShiftSession → List ShiftSession
  | [] => [⟨staffId, today, shift⟩]
  | x :: rest =>
    if x.staffId = staffId && x.date = today then ⟨staffId, today, shift⟩ :: rest
    else x :: upsertSession staffId today shift rest

/-- `assignClient` (staff controller): validate both ids, reject if the
client is already in the staff's set or already has a back-reference, then
push the client id onto `staff.assignedClients` and set
`client.assignedStaff`, saving both documents. -/
def assignClient (st : State) (staffId clientId : Nat) :
    Except ApiError (State × Staff) :=
  match st.staffs.find? (fun s => s.id = staffId) with
  | none => .error .notFound
  | some staff =>
    match st.clients.find? (fun c => c.id = clientId) with
    | none => .error .notFound
    | some client =>
      if staff.assignedClients.any (fun i => i = clientId) then .error .conflict
      else if client.assignedStaff.isSome then .error .conflict
      else
        let staff' := { staff with assignedClients := staff.assignedClients ++ [clientId] }
        let client' := { client with assignedStaff := some staffId }
        .ok ({ st with staffs := setById Staff.id st.staffs staff',
                       clients := setById Client.id st.clients client' }, staff')

/-- `removeAssignment` (staff controller): validate both ids, reject if the
client is not in the staff's set, then filter the client id out of
`staff.assignedClients` and clear `client.assignedStaff`. -/
def removeAssignment (st : State) (staffId clientId : Nat) :
    Except ApiError (State × Staff) :=
  match st.staffs.find? (fun s => s.id = staffId) with
  | none => .error .notFound
  | some staff =>
    match st.clients.find? (fun c => c.id = clientId) with
    | none => .error .notFound
    | some client =>
      if !(staff.assignedClients.any (fun i => i = clientId)) then .error .conflict
      else
        let staff' := { staff with
          assignedClients := staff.assignedClients.filter (fun i => i ≠ clientId) }
        let client' := { client with assignedStaff := none }
        .ok ({ st with staffs := setById Staff.id st.staffs staff',
                       clients := setById Client.id st.clients client' }, staff')

/-- `updateAssignedClients` (staff controller) — the spec's
`reconcileByShift`: keep in `staff.assignedClients` only the currently
assigned clients whose `timeShift` equals `shift`; the dropped clients'
`assignedStaff` back-references are NOT touched.  Returns the new count. -/
def updateAssignedClients (st : State) (staffId : Nat) (shift : String) :
    Except ApiError (State × Nat) :=
  if !(["AM", "PM"].contains shift) then .error .invalidInput
  else
    match st.staffs.find? (fun s => s.id = staffId) with
    | none => .error .notFound
    | some staff =>
      let allAssigned := st.clients.filter (fun c => staff.assignedClients.any (fun i => i = c.id))
      let filteredIds := (allAssigned.filter (fun c => c.timeShift = shift)).map Client.id
      let staff' := { staff with assignedClients := filteredIds }
      .ok ({ st with staffs := setById Staff.id st.staffs staff' }, filteredIds.length)

/-- `selectShift` (staff controller): reject a shift outside the settings
enumeration, then upsert the `StaffSession` keyed by (staffId, today at
midnight), overwriting any session already recorded for that day. -/
def selectShift (st : State) (staffId : Nat) (shift : String)
    (validShifts : List String) (today : Nat) :
    Except ApiError (State × ShiftSession) :=
  if shift = "" || !(validShifts.contains shift) then .error .invalidInput
  else
    match st.staffs.find? (fun s => s.id = staffId) with
    | none => .error .notFound
    | some _ =>
      .ok ({ st with sessions := upsertSession staffId today shift st.sessions },
           ⟨staffId, today, shift⟩)

/-- The `$set` document of `markClientDailyDelivered`'s upsert: every field
except `notes` is overwritten. -/
def deliveredSetFields (staffId clientId today : Nat) (shift : String)
    (client : Client) (r : DeliveryRecord) : DeliveryRecord :=
  { r with clientId := clientId, staffId := staffId, date := today,
           shift := shift, deliveryStatus := "Delivered",
           quantity := client.quantity,
           price := client.quantity * client.pricePerLitre }

/-- The document inserted when `markClientDailyDelivered`'s upsert misses:
the `$set` fields plus the schema defaults (no `notes`). -/
def deliveredFresh (staffId clientId today : Nat) (shift : String)
    (client : Client) : DeliveryRecord :=
  { clientId := clientId, staffId := staffId, date := today,
    shift := shift, deliveryStatus := "Delivered",
    quantity := client.quantity,
    price := client.quantity * client.pricePerLitre, notes := none }

/-- The client mirror of a Delivered outcome: status set and exactly one
history entry appended (the push is unconditional). -/
def deliveredMirror (today : Nat) (client : Client) : Client :=
  { client with
    deliveryStatus := "Delivered",
    deliveryHistory := client.deliveryHistory ++
      [⟨today, "Delivered", client.quantity, none⟩] }

/-- The `$set` document of `markClientDailyUndelivered`'s upsert: every
field including `notes` is overwritten. -/
def undeliveredSetFields (staffId clientId today : Nat) (shift reason : String)
    (r : DeliveryRecord) : DeliveryRecord :=
  { r with clientId := clientId, staffId := staffId, date := today,
           shift := shift, deliveryStatus := "Not Delivered",
           quantity := 0, price := 0, notes := some reason }

/-- The document inserted when `markClientDailyUndelivered`'s upsert
misses. -/
def undeliveredFresh (staffId clientId today : Nat) (shift reason : String) :
    DeliveryRecord :=
  { clientId := clientId, staffId := staffId, date := today,
    shift := shift, deliveryStatus := "Not Delivered",
    quantity := 0, price := 0, notes := some reason }

/-- The client mirror of a Not-Delivered outcome: status, note, and one
appended history entry carrying the reason. -/
def undeliveredMirror (today : Nat) (reason : String) (client : Client) : Client :=
  { client with
    deliveryStatus := "Not Delivered",
    deliveryNotes := some reason,
    deliveryHistory := client.deliveryHistory ++
      [⟨today, "Not Delivered", 0, some reason⟩] }

/-- `markClientDailyDelivered` (staff controller): require a shift, resolve
staff and client, require the client to be in the staff's assignment set,
then upsert the `DailyDelivery` by `(clientId, staffId, today)` setting
status `"Delivered"`, quantity = client's daily quantity and price =
quantity × price-per-litre, and mirror onto the client: delivery status
`"Delivered"` and one appended history entry.  (The `$set` does not touch
`notes`, so an updated record keeps its old note; a fresh record has none.)
The settings lookup `deliveryStatuses.find(s => s === "Delivered") ||
"Delivered"` always yields the constant `"Delivered"`. -/
def markClientDailyDelivered (st : State) (staffId clientId : Nat)
    (shift : String) (today : Nat) :
    Except ApiError (State × DeliveryRecord) :=
  if shift = "" then .error .invalidInput
  else
    match st.staffs.find? (fun s => s.id = staffId) with
    | none => .error .notFound
    | some staff =>
      match st.clients.find? (fun c => c.id = clientId) with
      | none => .error .notFound
      | some client =>
        if !(staff.assignedClients.any (fun i => i = clientId)) then .error .conflict
        else
          match upsertDelivery st.deliveries (markFilter clientId staffId today)
              (deliveredSetFields staffId clientId today shift client)
              (deliveredFresh staffId clientId today shift client) with
          | .error e => .error e
          | .ok (store', doc) =>
            .ok ({ st with deliveries := store',
                           clients := setById Client.id st.clients
                             (deliveredMirror today client) },
                 doc)

/-- `markClientDailyUndelivered` (staff controller): require a shift AND a
reason (this is the assignment-aware path where a reason is mandatory),
resolve staff and client, require the assignment, then upsert the
`DailyDelivery` by `(clientId, staffId, today)` setting status
`"Not Delivered"`, quantity 0, price 0 and `notes := reason`; mirror onto
the client: status `"Not Delivered"`, `deliveryNotes := reason` and one
appended history entry carrying the reason. -/
def markClientDailyUndelivered (st : State) (staffId clientId : Nat)
    (shift reason : String) (today : Nat) :
    Except ApiError (State × DeliveryRecord) :=
  if shift = "" then .error .invalidInput
  else if reason = "" then .error .invalidInput
  else
    match st.staffs.find? (fun s => s.id = staffId) with
    | none => .error .notFound
    | some staff =>
      match st.clients.find? (fun c => c.id = clientId) with
      | none => .error .notFound
      | some client =>
        if !(staff.assignedClients.any (fun i => i = clientId)) then .error .conflict
        else
          match upsertDelivery st.deliveries (markFilter clientId staffId today)
              (undeliveredSetFields staffId clientId today shift reason)
              (undeliveredFresh staffId clientId today shift reason) with
          | .error e => .error e
          | .ok (store', doc) =>
            .ok ({ st with deliveries := store',
                           clients := setById Client.id st.clients
                             (undeliveredMirror today reason client) },
                 doc)

/-! ### Aggregation engine (dashboard controller) -/

/-- The `$match` date filter `{date: {$gte: start, $lte: end}}`. -/
def inRange (startDate endDate : Nat) (r : DeliveryRecord) : Bool :=
  startDate ≤ r.date && r.date ≤ endDate

/-- Result shape of `getDeliverySuccessRate`. -/
structure SuccessRateResult where
  total : Nat
  delivered : Nat
  successRate : ℚ
  deriving DecidableEq, Repr

/-- `getDeliverySuccessRate` (dashboard controller): count the records in
range, count those with status `"Delivered"`, and return
`delivered / total * 100` guarded to `0` when `total = 0`. -/
def getDeliverySuccessRate (store : List DeliveryRecord) (startDate endDate : Nat) :
    SuccessRateResult :=
  let totalDeliveries := (store.filter (inRange startDate endDate)).length
  let deliveredCount := (store.filter (fun r =>
    inRange startDate endDate r && r.deliveryStatus = "Delivered")).length
  { total := totalDeliveries
    delivered := deliveredCount
    successRate :=
      if totalDeliveries > 0 then ((deliveredCount : ℚ) / totalDeliveries) * 100 else 0 }

/-- Insert into a list of naturals kept in ascending order. -/
def insertAsc (n : Nat) : List Nat → List Nat
  | [] => [n]
  | m :: rest => if n ≤ m then n :: m :: rest else m :: insertAsc n rest

/-- Sort a list of naturals ascending (the `$sort: {period: 1}` stage on the
group keys). -/
def sortAsc (l : List Nat) : List Nat := l.foldr insertAsc []

/-- One output bucket of `getDeliveryTrends`. -/
structure TrendBucket where
  period : Nat
  totalDeliveries : Nat
  successfulDeliveries : Nat
  successRate : ℚ
  totalQuantity : Nat
  totalRevenue : Nat
  deriving DecidableEq, Repr

/-- `getDeliveryTrends` (dashboard controller), parameterized by the
period's bucket-key function (for `period = "daily"` the key is the
calendar day itself, which under our day-number model is `DeliveryRecord.date`;
`weekly`/`monthly` use `$week` / `$year`+`$month` of the date).  For each
bucket: `totalDeliveries` is the record count, `successfulDeliveries` counts
the records whose status equals the literal `"delivered"` exactly as written
in the source's `$cond: [{$eq: ["$deliveryStatus", "delivered"]}, 1, 0]`,
`successRate` divides those with the zero-guard, and quantity/price are
summed; buckets are sorted ascending by key. -/
def getDeliveryTrends (store : List DeliveryRecord) (bucketKey : DeliveryRecord → Nat)
    (startDate endDate : Nat) : List TrendBucket :=
  let matched := store.filter (inRange startDate endDate)
  let keys := sortAsc ((matched.map bucketKey).dedup)
  keys.map (fun k =>
    let grp := matched.filter (fun r => bucketKey r = k)
    let tot := grp.length
    let succ := (grp.filter (fun r => r.deliveryStatus = "delivered")).length
    { period := k
      totalDeliveries := tot
      successfulDeliveries := succ
      successRate := (if tot = 0 then 0 else (succ : ℚ) / tot) * 100
      totalQuantity := (grp.map DeliveryRecord.quantity).sum
      totalRevenue := (grp.map DeliveryRecord.price).sum })

/-- The bucket key of the `"daily"` period: the calendar day. -/
def dailyKey (r : DeliveryRecord) : Nat := r.date

/-- One output row of `getNonDeliveryReasons`. -/
structure ReasonCount where
  reason : String
  count : Nat
  deriving DecidableEq, Repr

/-- Insert into a list of reason rows kept in descending order of count
(the `$sort: {count: -1}` stage). -/
def insertDesc (p : ReasonCount) : List ReasonCount → List ReasonCount
  | [] => [p]
  | q :: rest => if p.count ≥ q.count then p :: q :: rest else q :: insertDesc p rest

/-- `getNonDeliveryReasons` (dashboard controller): match the records in
range whose status equals the literal `"not_delivered"` exactly as written
in the source's `$match` (the schema enum stores `"Not Delivered"`), with an
existing non-empty `notes` field; group by the note text with a count per
group; sort descending by count. -/
def getNonDeliveryReasons (store : List DeliveryRecord) (startDate endDate : Nat) :
    List ReasonCount :=
  let matched := store.filter (fun r =>
    inRange startDate endDate r && r.deliveryStatus = "not_delivered" &&
      (match r.notes with | some n => n ≠ "" | none => false))
  let reasons := (matched.filterMap DeliveryRecord.notes).dedup
  let rows := reasons.map (fun n =>
    (⟨n, (matched.filter (fun r => r.notes = some n)).length⟩ : ReasonCount))
  rows.foldr insertDesc []

/-! ### Well-formedness and the Assignment Ledger invariant -/

/-- Mongo's `_id` is a primary key: every collection holds pairwise
distinct ids. -/
def Wf (st : State) : Prop :=
  (st.staffs.map Staff.id).Nodup ∧ (st.clients.map Client.id).Nodup

/-- The Assignment Ledger invariant as the spec states it: a client has a
staff back-reference iff some staff's assignment set contains its id. -/
def backRefConsistent (st : State) : Prop :=
  ∀ c ∈ st.clients,
    (c.assignedStaff.isSome ↔ ∃ s ∈ st.staffs, c.id ∈ s.assignedClients)

/-- No client id is claimed by the assignment sets of two different staff
documents (true of every state the ledger operations themselves produce). -/
def atMostOneOwner (st : State) : Prop :=
  ∀ s₁ ∈ st.staffs, ∀ s₂ ∈ st.staffs, ∀ cid ∈ s₁.assignedClients,
    cid ∈ s₂.assignedClients → s₁ = s₂

/-! ### Helper lemmas about `setById` and `find?` -/

theorem setById_map_key {α : Type} (key : α → Nat) (l : List α) (a : α) :
    (setById key l a).map key = l.map key := by
  induction l with
  | nil => rfl
  | cons x xs ih =>
    simp only [setById, List.map_cons] at ih ⊢
    by_cases h : key x = key a
    · simp [h, ih]
    · simp [h, ih]

theorem mem_setById {α : Type} {k : α → Nat} {l : List α} {a x : α}
    (h : x ∈ setById k l a) : x = a ∨ (x ∈ l ∧ k x ≠ k a) := by
  rcases List.mem_map.mp h with ⟨y, hy, hyx⟩
  by_cases hk : k y = k a
  · simp only [hk, if_pos rfl] at hyx
    exact Or.inl hyx.symm
  · simp only [if_neg hk] at hyx
    exact Or.inr ⟨hyx ▸ hy, hyx ▸ hk⟩

theorem mem_setById_of_mem {α : Type} {k : α → Nat} {l : List α} {a x : α}
    (hx : x ∈ l) (hne : k x ≠ k a) : x ∈ setById k l a := by
  apply List.mem_map.mpr
  exact ⟨x, hx, by simp [if_neg hne]⟩

theorem self_mem_setById {α : Type} {k : α → Nat} {l : List α} {a x : α}
    (hx : x ∈ l) (hk : k x = k a) : a ∈ setById k l a := by
  apply List.mem_map.mpr
  exact ⟨x, hx, by simp [if_pos hk]⟩

theorem find?_setById_self {α : Type} {k : α → Nat} {l : List α} {a x : α} {i : Nat}
    (hf : l.find? (fun y => k y = i) = some x) (hk : k a = i) :
    (setById k l a).find? (fun y => k y = i) = some a := by
  induction l with
  | nil => simp at hf
  | cons z zs ih =>
    by_cases hz : k z = i
    · have hza : k z = k a := by rw [hz, hk]
      simp only [setById, List.map_cons, if_pos hza]
      exact List.find?_cons_of_pos _ (by simpa using hk)
    · have hz' : k z ≠ k a := fun h => hz (h.trans hk)
      rw [List.find?_cons_of_neg _ (by simpa using hz)] at hf
      simp only [setById, List.map_cons, if_neg hz']
      rw [List.find?_cons_of_neg _ (by simpa using hz)]
      exact ih hf

theorem find?_key_eq {α : Type} {k : α → Nat} {l : List α} {x : α} {i : Nat}
    (hf : l.find? (fun y => k y = i) = some x) : k x = i := by
  have := List.find?_some hf
  simpa using this

theorem setById_setById {α : Type} (key : α → Nat) (l : List α) (a b : α)
    (h : key a = key b) : setById key (setById key l a) b = setById key l b := by
  simp only [setById, List.map_map]
  apply List.map_congr_left
  intro x _
  by_cases hx : key x = key a
  · simp [Function.comp, hx, h, hx.trans h]
  · have hxb : key x ≠ key b := fun hc => hx (hc.trans h.symm)
    simp [Function.comp, hx, hxb]

theorem setById_eq_self {α : Type} {k : α → Nat} {l : List α} {a : α}
    (h : ∀ x ∈ l, k x = k a → x = a) : setById k l a = l := by
  have : ∀ x ∈ l, (if k x = k a then a else x) = x := by
    intro x hx
    by_cases hk : k x = k a
    · simp [hk, (h x hx hk).symm]
    · simp [hk]
  calc setById k l a = l.map id := List.map_congr_left (by simpa using this)
    _ = l := List.map_id l

theorem any_eq_iff_mem {l : List Nat} {n : Nat} :
    (l.any (fun i => i = n)) = true ↔ n ∈ l := by
  simp [List.any_eq_true]

/-- What a successful `assignClient` did: both lookups hit, neither conflict
fired, and both documents were written back. -/
theorem assignClient_ok {st : State} {staffId clientId : Nat} {st' : State} {out : Staff}
    (h : assignClient st staffId clientId = .ok (st', out)) :
    ∃ staff client,
      st.staffs.find? (fun s => s.id = staffId) = some staff ∧
      st.clients.find? (fun c => c.id = clientId) = some client ∧
      clientId ∉ staff.assignedClients ∧
      client.assignedStaff = none ∧
      st' = { st with
        staffs := setById Staff.id st.staffs
          { staff with assignedClients := staff.assignedClients ++ [clientId] },
        clients := setById Client.id st.clients
          { client with assignedStaff := some staffId } } := by
  unfold assignClient at h
  cases hfs : st.staffs.find? (fun s => s.id = staffId) with
  | none => rw [hfs] at h; exact absurd h (by simp)
  | some staff =>
    rw [hfs] at h
    cases hfc : st.clients.find? (fun c => c.id = clientId) with
    | none => rw [hfc] at h; exact absurd h (by simp)
    | some client =>
      rw [hfc] at h
      dsimp only at h
      by_cases hmem : (staff.assignedClients.any (fun i => i = clientId)) = true
      · rw [if_pos hmem] at h; exact absurd h (by simp)
      · rw [if_neg hmem] at h
        by_cases hbr : client.assignedStaff.isSome = true
        · rw [if_pos hbr] at h; exact absurd h (by simp)
        · rw [if_neg hbr] at h
          refine ⟨staff, client, rfl, rfl, ?_, ?_, ?_⟩
          · exact fun hc => hmem (any_eq_iff_mem.mpr hc)
          · cases hbs : client.assignedStaff with
            | none => rfl
            | some s => rw [hbs] at hbr; exact absurd rfl hbr
          · exact (congrArg Prod.fst (Except.ok.inj h)).symm

/-- What a successful `removeAssignment` did. -/
theorem removeAssignment_ok {st : State} {staffId clientId : Nat} {st' : State} {out : Staff}
    (h : removeAssignment st staffId clientId = .ok (st', out)) :
    ∃ staff client,
      st.staffs.find? (fun s => s.id = staffId) = some staff ∧
      st.clients.find? (fun c => c.id = clientId) = some client ∧
      clientId ∈ staff.assignedClients ∧
      st' = { st with
        staffs := setById Staff.id st.staffs
          { staff with assignedClients := staff.assignedClients.filter (fun i => i ≠ clientId) },
        clients := setById Client.id st.clients
          { client with assignedStaff := none } } := by
  unfold removeAssignment at h
  cases hfs : st.staffs.find? (fun s => s.id = staffId) with
  | none => rw [hfs] at h; exact absurd h (by simp)
  | some staff =>
    rw [hfs] at h
    cases hfc : st.clients.find? (fun c => c.id = clientId) with
    | none => rw [hfc] at h; exact absurd h (by simp)
    | some client =>
      rw [hfc] at h
      dsimp only at h
      by_cases hmem : (staff.assignedClients.any (fun i => i = clientId)) = true
      · rw [if_neg (by simp [hmem])] at h
        refine ⟨staff, client, rfl, rfl, any_eq_iff_mem.mp hmem, ?_⟩
        exact (congrArg Prod.fst (Except.ok.inj h)).symm
      · have hmem' : clientId ∉ staff.assignedClients := fun hc => hmem (any_eq_iff_mem.mpr hc)
        rw [if_pos (by
          simp only [Bool.not_eq_true', List.any_eq_false, decide_eq_true_eq]
          exact fun x hx he => hmem' (he ▸ hx))] at h
        exact absurd h (by simp)

theorem assign_preserves_inv {st : State} {staffId clientId : Nat} {st' : State} {out : Staff}
    (hwf : Wf st) (hbr : backRefConsistent st) (hone : atMostOneOwner st)
    (h : assignClient st staffId clientId = .ok (st', out)) :
    backRefConsistent st' ∧ atMostOneOwner st' := by
  obtain ⟨S, C, hfs, hfc, hnotmem, hnone, hst'⟩ := assignClient_ok h
  have hSmem : S ∈ st.staffs := List.mem_of_find?_eq_some hfs
  have hSid : S.id = staffId := find?_key_eq (k := Staff.id) hfs
  have hCmem : C ∈ st.clients := List.mem_of_find?_eq_some hfc
  have hCid : C.id = clientId := find?_key_eq (k := Client.id) hfc
  set S' : Staff := { S with assignedClients := S.assignedClients ++ [clientId] } with hS'
  set C' : Client := { C with assignedStaff := some staffId } with hC'
  have hstaffs' : st'.staffs = setById Staff.id st.staffs S' := by rw [hst']
  have hclients' : st'.clients = setById Client.id st.clients C' := by rw [hst']
  -- basic membership facts
  have F1 : ∀ x ∈ st'.staffs, x = S' ∨ (x ∈ st.staffs ∧ x.id ≠ staffId) := by
    intro x hx
    rw [hstaffs'] at hx
    rcases mem_setById hx with h' | ⟨h₁, h₂⟩
    · exact Or.inl h'
    · exact Or.inr ⟨h₁, fun he => h₂ (by simpa [hS', hSid] using he)⟩
  have F2 : S' ∈ st'.staffs := by
    rw [hstaffs']; exact self_mem_setById hSmem rfl
  have F3 : ∀ x ∈ st.staffs, x.id ≠ staffId → x ∈ st'.staffs := by
    intro x hx hne
    rw [hstaffs']
    exact mem_setById_of_mem hx (by simpa [hS', hSid] using hne)
  have F4 : ∀ s ∈ st.staffs, s.id = staffId → s = S := by
    intro s hs hsid
    exact List.inj_on_of_nodup_map hwf.1 hs hSmem (by rw [hsid, hSid])
  have F5 : ¬∃ s ∈ st.staffs, clientId ∈ s.assignedClients := by
    rintro ⟨s, hs, hin⟩
    have : C.assignedStaff.isSome = true := (hbr C hCmem).mpr ⟨s, hs, hCid ▸ hin⟩
    rw [hnone] at this
    simp at this
  constructor
  · -- back-reference consistency
    intro c hc
    rw [hclients'] at hc
    rcases mem_setById hc with rfl | ⟨hcm, hcne⟩
    · constructor
      · intro _
        exact ⟨S', F2, by simp [hS', hC', hCid]⟩
      · intro _
        simp [hC']
    · have hcid : c.id ≠ clientId := by simpa [hC', hCid] using hcne
      have base := hbr c hcm
      constructor
      · intro hs
        obtain ⟨s, hsmem, hin⟩ := base.mp hs
        by_cases hsid : s.id = staffId
        · have := F4 s hsmem hsid
          subst this
          exact ⟨S', F2, by simp [hS']; exact Or.inl hin⟩
        · exact ⟨s, F3 s hsmem hsid, hin⟩
      · rintro ⟨s, hsmem, hin⟩
        rcases F1 s hsmem with rfl | ⟨horig, _⟩
        · simp only [hS', List.mem_append, List.mem_singleton] at hin
          rcases hin with hin | hin
          · exact base.mpr ⟨S, hSmem, hin⟩
          · exact absurd hin hcid
        · exact base.mpr ⟨s, horig, hin⟩
  · -- at most one owner
    intro s₁ hs₁ s₂ hs₂ cid hcid₁ hcid₂
    rcases F1 s₁ hs₁ with rfl | ⟨ho₁, hn₁⟩
    · rcases F1 s₂ hs₂ with rfl | ⟨ho₂, hn₂⟩
      · rfl
      · simp only [hS', List.mem_append, List.mem_singleton] at hcid₁
        rcases hcid₁ with hin | rfl
        · have := hone S hSmem s₂ ho₂ cid hin hcid₂
          exact absurd (this ▸ hSid) hn₂
        · exact absurd ⟨s₂, ho₂, hcid₂⟩ F5
    · rcases F1 s₂ hs₂ with rfl | ⟨ho₂, hn₂⟩
      · simp only [hS', List.mem_append, List.mem_singleton] at hcid₂
        rcases hcid₂ with hin | rfl
        · have := hone s₁ ho₁ S hSmem cid hcid₁ hin
          exact absurd (this ▸ hSid ▸ rfl : s₁.id = staffId) hn₁
        · exact absurd ⟨s₁, ho₁, hcid₁⟩ F5
      · exact hone s₁ ho₁ s₂ ho₂ cid hcid₁ hcid₂

theorem remove_preserves_inv {st : State} {staffId clientId : Nat} {st' : State} {out : Staff}
    (hwf : Wf st) (hbr : backRefConsistent st) (hone : atMostOneOwner st)
    (h : removeAssignment st staffId clientId = .ok (st', out)) :
    backRefConsistent st' ∧ atMostOneOwner st' := by
  obtain ⟨S, C, hfs, hfc, hmem, hst'⟩ := removeAssignment_ok h
  have hSmem : S ∈ st.staffs := List.mem_of_find?_eq_some hfs
  have hSid : S.id = staffId := find?_key_eq (k := Staff.id) hfs
  have hCmem : C ∈ st.clients := List.mem_of_find?_eq_some hfc
  have hCid : C.id = clientId := find?_key_eq (k := Client.id) hfc
  set S' : Staff :=
    { S with assignedClients := S.assignedClients.filter (fun i => i ≠ clientId) } with hS'
  set C' : Client := { C with assignedStaff := none } with hC'
  have hstaffs' : st'.staffs = setById Staff.id st.staffs S' := by rw [hst']
  have hclients' : st'.clients = setById Client.id st.clients C' := by rw [hst']
  have F1 : ∀ x ∈ st'.staffs, x = S' ∨ (x ∈ st.staffs ∧ x.id ≠ staffId) := by
    intro x hx
    rw [hstaffs'] at hx
    rcases mem_setById hx with h' | ⟨h₁, h₂⟩
    · exact Or.inl h'
    · exact Or.inr ⟨h₁, fun he => h₂ (by simpa [hS', hSid] using he)⟩
  have F2 : S' ∈ st'.staffs := by
    rw [hstaffs']; exact self_mem_setById hSmem rfl
  have F3 : ∀ x ∈ st.staffs, x.id ≠ staffId → x ∈ st'.staffs := by
    intro x hx hne
    rw [hstaffs']
    exact mem_setById_of_mem hx (by simpa [hS', hSid] using hne)
  have F4 : ∀ s ∈ st.staffs, s.id = staffId → s = S := by
    intro s hs hsid
    exact List.inj_on_of_nodup_map hwf.1 hs hSmem (by rw [hsid, hSid])
  have G1 : clientId ∉ S'.assignedClients := by simp [hS', List.mem_filter]
  have G2 : ∀ x, x ∈ S'.assignedClients → x ∈ S.assignedClients ∧ x ≠ clientId := by
    intro x hx
    simpa [hS', List.mem_filter] using hx
  have G3 : ∀ x ∈ S.assignedClients, x ≠ clientId → x ∈ S'.assignedClients := by
    intro x hx hne
    simp [hS', List.mem_filter, hx, hne]
  have G5 : ∀ s ∈ st.staffs, clientId ∈ s.assignedClients → s = S := by
    intro s hs hin
    exact hone s hs S hSmem clientId hin hmem
  constructor
  · intro c hc
    rw [hclients'] at hc
    rcases mem_setById hc with rfl | ⟨hcm, hcne⟩
    · constructor
      · intro hfalse
        simp [hC'] at hfalse
      · rintro ⟨s, hs, hin⟩
        have hcid : C'.id = clientId := hCid
        rw [hcid] at hin
        rcases F1 s hs with rfl | ⟨horig, hnid⟩
        · exact absurd hin G1
        · exact absurd ((G5 s horig hin) ▸ hSid ▸ rfl : s.id = staffId) hnid
    · have hcid : c.id ≠ clientId := by simpa [hC', hCid] using hcne
      have base := hbr c hcm
      constructor
      · intro hs
        obtain ⟨s, hsmem, hin⟩ := base.mp hs
        by_cases hsid : s.id = staffId
        · have := F4 s hsmem hsid
          subst this
          exact ⟨S', F2, G3 _ hin hcid⟩
        · exact ⟨s, F3 s hsmem hsid, hin⟩
      · rintro ⟨s, hsmem, hin⟩
        rcases F1 s hsmem with rfl | ⟨horig, _⟩
        · exact base.mpr ⟨S, hSmem, (G2 _ hin).1⟩
        · exact base.mpr ⟨s, horig, hin⟩
  · intro s₁ hs₁ s₂ hs₂ cid hcid₁ hcid₂
    rcases F1 s₁ hs₁ with rfl | ⟨ho₁, hn₁⟩
    · rcases F1 s₂ hs₂ with rfl | ⟨ho₂, hn₂⟩
      · rfl
      · have hin := (G2 _ hcid₁).1
        have := hone S hSmem s₂ ho₂ cid hin hcid₂
        exact absurd (this ▸ hSid) hn₂
    · rcases F1 s₂ hs₂ with rfl | ⟨ho₂, hn₂⟩
      · have hin := (G2 _ hcid₂).1
        have := hone s₁ ho₁ S hSmem cid hcid₁ hin
        exact absurd (this ▸ hSid ▸ rfl : s₁.id = staffId) hn₁
      · exact hone s₁ ho₁ s₂ ho₂ cid hcid₁ hcid₂

instance (st : State) : Decidable (backRefConsistent st) := by
  unfold backRefConsistent; exact inferInstance

instance (st : State) : Decidable (atMostOneOwner st) := by
  unfold atMostOneOwner; exact inferInstance

instance (st : State) : Decidable (Wf st) := by
  unfold Wf; exact inferInstance

instance {e a : Type} [DecidableEq e] [DecidableEq a] : DecidableEq (Except e a)
  | .error x, .error y =>
    if h : x = y then .isTrue (by rw [h]) else .isFalse (by intro hc; cases hc; exact h rfl)
  | .ok x, .ok y =>
    if h : x = y then .isTrue (by rw [h]) else .isFalse (by intro hc; cases hc; exact h rfl)
  | .error _, .ok _ => .isFalse (by intro hc; cases hc)
  | .ok _, .error _ => .isFalse (by intro hc; cases hc)

/-- A consistent two-document state: one staff with no assignments, one
AM-shift client with no back-reference. -/
def stC1a : State :=
  { staffs := [⟨1, [], "AM"⟩],
    clients := [⟨2, "AM", 5, 10, "Pending", none, [], none⟩],
    sessions := [], deliveries := [] }

/-- `stC1a` after `assignClient 1 2`: both sides of the relationship set. -/
def stC1b : State :=
  { staffs := [⟨1, [2], "AM"⟩],
    clients := [⟨2, "AM", 5, 10, "Pending", none, [], some 1⟩],
    sessions := [], deliveries := [] }

/-- `stC1b` after `updateAssignedClients 1 "PM"`: the AM client is dropped
from the staff's set but keeps its back-reference. -/
def stC1c : State :=
  { staffs := [⟨1, [], "AM"⟩],
    clients := [⟨2, "AM", 5, 10, "Pending", none, [], some 1⟩],
    sessions := [], deliveries := [] }

/-- C1, counterexample: the claim "every core operation (assign, unassign,
reconcileByShift) preserves the bidirectional-consistency invariant" is
false.  From the consistent state reached by `assignClient` alone,
`updateAssignedClients` (the spec's `reconcileByShift`) succeeds but leaves
client 2 with a staff back-reference while no staff's assignment set
contains it. -/
theorem reconcileByShift_breaks_invariant :
    assignClient stC1a 1 2 = .ok (stC1b, ⟨1, [2], "AM"⟩) ∧
    backRefConsistent stC1b ∧
    updateAssignedClients stC1b 1 "PM" = .ok (stC1c, 0) ∧
    ¬ backRefConsistent stC1c := by
  refine ⟨by decide, by decide, by decide, ?_⟩
  intro hinv
  have := (hinv ⟨2, "AM", 5, 10, "Pending", none, [], some 1⟩ (by decide)).mp (by decide)
  revert this
  decide

/-- C1, amended: `assign` and `unassign` preserve the bidirectional
consistency invariant (together with the at-most-one-owner property, which
every state produced by the ledger operations themselves satisfies);
`reconcileByShift` does not preserve it. -/
theorem ledger_assign_unassign_preserve_invariant
    (st : State) (staffId clientId : Nat) (st' : State) (out : Staff)
    (hwf : Wf st) (hbr : backRefConsistent st) (hone : atMostOneOwner st) :
    (assignClient st staffId clientId = .ok (st', out) →
      backRefConsistent st' ∧ atMostOneOwner st') ∧
    (removeAssignment st staffId clientId = .ok (st', out) →
      backRefConsistent st' ∧ atMostOneOwner st') :=
  ⟨fun h => assign_preserves_inv hwf hbr hone h,
   fun h => remove_preserves_inv hwf hbr hone h⟩

/-- C1, witness: the preservation theorem applied to the concrete
assignment `stC1a → stC1b` and the concrete removal `stC1b → stC1a`. -/
theorem ledger_assign_unassign_preserve_invariant_witness :
    (backRefConsistent stC1b ∧ atMostOneOwner stC1b) ∧
    (backRefConsistent stC1a ∧ atMostOneOwner stC1a) :=
  ⟨(ledger_assign_unassign_preserve_invariant stC1a 1 2 stC1b ⟨1, [2], "AM"⟩
      (by decide) (by decide) (by decide)).1 (by decide),
   (ledger_assign_unassign_preserve_invariant stC1b 1 2 stC1a ⟨1, [], "AM"⟩
      (by decide) (by decide) (by decide)).2 (by decide)⟩

/-- C8: `assign` followed immediately by `unassign` on the same
(staff, client) pair restores the pre-assignment state exactly: the
client's back-reference is cleared (it was necessarily clear before, or the
assign would have conflicted) and the staff's assignment set returns to its
prior contents. -/
theorem assign_then_unassign_roundtrip
    (st : State) (staffId clientId : Nat) (st₁ : State) (out : Staff)
    (hwf : Wf st)
    (h : assignClient st staffId clientId = .ok (st₁, out)) :
    ∃ out₂, removeAssignment st₁ staffId clientId = .ok (st, out₂) := by
  obtain ⟨S, C, hfs, hfc, hnotmem, hnone, hst₁⟩ := assignClient_ok h
  have hSmem : S ∈ st.staffs := List.mem_of_find?_eq_some hfs
  have hSid : S.id = staffId := find?_key_eq (k := Staff.id) hfs
  have hCmem : C ∈ st.clients := List.mem_of_find?_eq_some hfc
  have hCid : C.id = clientId := find?_key_eq (k := Client.id) hfc
  set S' : Staff := { S with assignedClients := S.assignedClients ++ [clientId] } with hS'
  set C' : Client := { C with assignedStaff := some staffId } with hC'
  have hfs₁ : st₁.staffs.find? (fun s => s.id = staffId) = some S' := by
    rw [hst₁]
    exact find?_setById_self (k := Staff.id) hfs hSid
  have hfc₁ : st₁.clients.find? (fun c => c.id = clientId) = some C' := by
    rw [hst₁]
    exact find?_setById_self (k := Client.id) hfc hCid
  have hany : (S'.assignedClients.any (fun i => i = clientId)) = true :=
    any_eq_iff_mem.mpr (by simp [hS'])
  -- the documents written back by the removal are the original ones
  have hSrestore : { S' with
      assignedClients := S'.assignedClients.filter (fun i => i ≠ clientId) } = S := by
    have hfilter : (S.assignedClients ++ [clientId]).filter (fun i => i ≠ clientId)
        = S.assignedClients := by
      rw [List.filter_append]
      have h₁ : S.assignedClients.filter (fun i => i ≠ clientId) = S.assignedClients :=
        List.filter_eq_self.mpr (fun a ha => by
          simp only [decide_eq_true_eq]
          exact fun he => hnotmem (he ▸ ha))
      have h₂ : ([clientId].filter (fun i => i ≠ clientId)) = [] := by simp
      rw [h₁, h₂, List.append_nil]
    cases S
    simp only [hS'] at hfilter ⊢
    simp [hfilter]
    exact fun a ha he => hnotmem (he ▸ ha)
  have hCrestore : { C' with assignedStaff := (none : Option Nat) } = C := by
    cases C
    simp only [hC'] at hnone ⊢
    simp [hnone]
  refine ⟨S, ?_⟩
  unfold removeAssignment
  rw [hfs₁, hfc₁]
  dsimp only
  rw [if_neg (by simp [hany])]
  rw [hSrestore, hCrestore]
  have hstaffs : setById Staff.id st₁.staffs S = st.staffs := by
    rw [hst₁]
    show setById Staff.id (setById Staff.id st.staffs S') S = st.staffs
    rw [setById_setById Staff.id st.staffs S' S rfl]
    exact setById_eq_self (fun x hx hid =>
      List.inj_on_of_nodup_map hwf.1 hx hSmem hid)
  have hclients : setById Client.id st₁.clients C = st.clients := by
    rw [hst₁]
    show setById Client.id (setById Client.id st.clients C') C = st.clients
    rw [setById_setById Client.id st.clients C' C rfl]
    exact setById_eq_self (fun x hx hid =>
      List.inj_on_of_nodup_map hwf.2 hx hCmem hid)
  have hsess : st₁.sessions = st.sessions := by rw [hst₁]
  have hdel : st₁.deliveries = st.deliveries := by rw [hst₁]
  rw [hstaffs, hclients, hsess, hdel]

/-- C8, witness: the round trip run on the concrete two-document state. -/
theorem assign_then_unassign_roundtrip_witness :
    ∃ out₂, removeAssignment stC1b 1 2 = .ok (stC1a, out₂) :=
  assign_then_unassign_roundtrip stC1a 1 2 stC1b ⟨1, [2], "AM"⟩
    (by decide) (by decide)

/-! ### Lemmas about the delivery upsert and the unique index -/

theorem sameKey_iff {r₁ r₂ : DeliveryRecord} :
    sameKey r₁ r₂ = true ↔
      r₁.clientId = r₂.clientId ∧ r₁.date = r₂.date ∧ r₁.shift = r₂.shift := by
  simp [sameKey, Bool.and_eq_true, decide_eq_true_eq, and_assoc]

theorem sameKey_symm {r₁ r₂ : DeliveryRecord} (h : sameKey r₁ r₂ = true) :
    sameKey r₂ r₁ = true := by
  rcases sameKey_iff.mp h with ⟨h₁, h₂, h₃⟩
  exact sameKey_iff.mpr ⟨h₁.symm, h₂.symm, h₃.symm⟩

theorem hasDupKey_true_of_mem {l : List DeliveryRecord} {r a : DeliveryRecord}
    (hr : r ∈ l) (hk : sameKey a r = true) : hasDupKey (l ++ [a]) = true := by
  induction l with
  | nil => simp at hr
  | cons x rest ih =>
    rcases List.mem_cons.mp hr with h₀ | hmem
    · have hany : ((rest ++ [a]).any fun y => sameKey y x) = true :=
        List.any_eq_true.mpr ⟨a, List.mem_append_right _ (List.mem_singleton.mpr rfl), h₀ ▸ hk⟩
      show (((rest ++ [a]).any fun y => sameKey y x) || hasDupKey (rest ++ [a])) = true
      rw [hany, Bool.true_or]
    · show (((rest ++ [a]).any fun y => sameKey y x) || hasDupKey (rest ++ [a])) = true
      rw [ih hmem, Bool.or_true]

theorem hasDupKey_append_false {l : List DeliveryRecord} {a : DeliveryRecord}
    (hl : hasDupKey l = false) (ha : ∀ x ∈ l, sameKey a x = false) :
    hasDupKey (l ++ [a]) = false := by
  induction l with
  | nil => rfl
  | cons r rest ih =>
    have hl' : (rest.any fun y => sameKey y r) = false ∧ hasDupKey rest = false := by
      simpa [hasDupKey, Bool.or_eq_false_iff] using hl
    show (((rest ++ [a]).any fun y => sameKey y r) || hasDupKey (rest ++ [a])) = false
    have h₁ : ((rest ++ [a]).any fun y => sameKey y r) = false := by
      rw [List.any_append, hl'.1]
      have hra : sameKey a r = false := ha r (List.mem_cons_self r rest)
      simpa using hra
    have h₂ : hasDupKey (rest ++ [a]) = false :=
      ih hl'.2 (fun x hx => ha x (List.mem_cons_of_mem r hx))
    rw [h₁, h₂, Bool.or_false]

theorem upsertCore_no_match {filter : DeliveryRecord → Bool}
    {set : DeliveryRecord → DeliveryRecord} {fresh : DeliveryRecord}
    {l : List DeliveryRecord} (h : ∀ r ∈ l, filter r = false) :
    upsertCore filter set fresh l = (l ++ [fresh], fresh) := by
  induction l with
  | nil => rfl
  | cons r rest ih =>
    have hr : filter r = false := h r (List.mem_cons_self r rest)
    have ih' := ih (fun x hx => h x (List.mem_cons_of_mem r hx))
    simp [upsertCore, hr, ih']

theorem upsertCore_match_after {filter : DeliveryRecord → Bool}
    {set : DeliveryRecord → DeliveryRecord} {fresh : DeliveryRecord}
    (D : List DeliveryRecord) (r : DeliveryRecord) (rest : List DeliveryRecord)
    (hD : ∀ x ∈ D, filter x = false) (hr : filter r = true) :
    upsertCore filter set fresh (D ++ r :: rest) = (D ++ set r :: rest, set r) := by
  induction D with
  | nil => simp [upsertCore, hr]
  | cons d ds ih =>
    have hd : filter d = false := hD d (List.mem_cons_self d ds)
    have ih' := ih (fun x hx => hD x (List.mem_cons_of_mem d hx))
    simp [upsertCore, hd, ih']

theorem upsertCore_doc {filter : DeliveryRecord → Bool}
    {set : DeliveryRecord → DeliveryRecord} {fresh : DeliveryRecord}
    (l : List DeliveryRecord) :
    (upsertCore filter set fresh l).2 = fresh ∨
      ∃ r ∈ l, (upsertCore filter set fresh l).2 = set r := by
  induction l with
  | nil => exact Or.inl rfl
  | cons r rest ih =>
    by_cases hr : filter r = true
    · exact Or.inr ⟨r, List.mem_cons_self r rest, by simp [upsertCore, hr]⟩
    · have : (upsertCore filter set fresh (r :: rest)).2
          = (upsertCore filter set fresh rest).2 := by
        simp [upsertCore, hr]
      rw [this]
      rcases ih with h | ⟨x, hx, hdoc⟩
      · exact Or.inl h
      · exact Or.inr ⟨x, List.mem_cons_of_mem r hx, hdoc⟩

/-- What a successful `markClientDailyDelivered` did. -/
theorem markDelivered_ok {st : State} {staffId clientId : Nat} {shift : String}
    {today : Nat} {st' : State} {rec : DeliveryRecord}
    (h : markClientDailyDelivered st staffId clientId shift today = .ok (st', rec)) :
    shift ≠ "" ∧
    ∃ staff client store',
      st.staffs.find? (fun s => s.id = staffId) = some staff ∧
      st.clients.find? (fun c => c.id = clientId) = some client ∧
      clientId ∈ staff.assignedClients ∧
      upsertDelivery st.deliveries (markFilter clientId staffId today)
        (deliveredSetFields staffId clientId today shift client)
        (deliveredFresh staffId clientId today shift client) = .ok (store', rec) ∧
      st' = { st with
              deliveries := store',
              clients := setById Client.id st.clients (deliveredMirror today client) } := by
  unfold markClientDailyDelivered at h
  by_cases hsh : shift = ""
  · rw [if_pos (by simpa using hsh)] at h; exact absurd h (by simp)
  · rw [if_neg (by simpa using hsh)] at h
    refine ⟨hsh, ?_⟩
    cases hfs : st.staffs.find? (fun s => s.id = staffId) with
    | none => rw [hfs] at h; exact absurd h (by simp)
    | some staff =>
      rw [hfs] at h
      cases hfc : st.clients.find? (fun c => c.id = clientId) with
      | none => rw [hfc] at h; exact absurd h (by simp)
      | some client =>
        rw [hfc] at h
        dsimp only at h
        by_cases hmem : (staff.assignedClients.any (fun i => i = clientId)) = true
        · rw [if_neg (by simp [hmem])] at h
          cases hups : upsertDelivery st.deliveries (markFilter clientId staffId today)
              (deliveredSetFields staffId clientId today shift client)
              (deliveredFresh staffId clientId today shift client) with
          | error e => rw [hups] at h; exact absurd h (by simp)
          | ok p =>
            rw [hups] at h
            obtain ⟨store', doc⟩ := p
            dsimp only at h
            have hpair := Except.ok.inj h
            refine ⟨staff, client, store', rfl, rfl, any_eq_iff_mem.mp hmem, ?_, ?_⟩
            · have hdoc : doc = rec := congrArg Prod.snd hpair
              rw [hups, hdoc]
            · exact (congrArg Prod.fst hpair).symm
        · rw [if_pos (by
            simp only [Bool.not_eq_true', List.any_eq_false, decide_eq_true_eq]
            intro x hx he
            exact hmem (any_eq_iff_mem.mpr (he ▸ hx)))] at h
          exact absurd h (by simp)

/-- What a successful `markClientDailyUndelivered` did. -/
theorem markUndelivered_ok {st : State} {staffId clientId : Nat} {shift reason : String}
    {today : Nat} {st' : State} {rec : DeliveryRecord}
    (h : markClientDailyUndelivered st staffId clientId shift reason today = .ok (st', rec)) :
    shift ≠ "" ∧ reason ≠ "" ∧
    ∃ staff client store',
      st.staffs.find? (fun s => s.id = staffId) = some staff ∧
      st.clients.find? (fun c => c.id = clientId) = some client ∧
      clientId ∈ staff.assignedClients ∧
      upsertDelivery st.deliveries (markFilter clientId staffId today)
        (undeliveredSetFields staffId clientId today shift reason)
        (undeliveredFresh staffId clientId today shift reason) = .ok (store', rec) ∧
      st' = { st with
              deliveries := store',
              clients := setById Client.id st.clients
                (undeliveredMirror today reason client) } := by
  unfold markClientDailyUndelivered at h
  by_cases hsh : shift = ""
  · rw [if_pos (by simpa using hsh)] at h; exact absurd h (by simp)
  · rw [if_neg (by simpa using hsh)] at h
    by_cases hre : reason = ""
    · rw [if_pos (by simpa using hre)] at h; exact absurd h (by simp)
    · rw [if_neg (by simpa using hre)] at h
      refine ⟨hsh, hre, ?_⟩
      cases hfs : st.staffs.find? (fun s => s.id = staffId) with
      | none => rw [hfs] at h; exact absurd h (by simp)
      | some staff =>
        rw [hfs] at h
        cases hfc : st.clients.find? (fun c => c.id = clientId) with
        | none => rw [hfc] at h; exact absurd h (by simp)
        | some client =>
          rw [hfc] at h
          dsimp only at h
          by_cases hmem : (staff.assignedClients.any (fun i => i = clientId)) = true
          · rw [if_neg (by simp [hmem])] at h
            cases hups : upsertDelivery st.deliveries (markFilter clientId staffId today)
                (undeliveredSetFields staffId clientId today shift reason)
                (undeliveredFresh staffId clientId today shift reason) with
            | error e => rw [hups] at h; exact absurd h (by simp)
            | ok p =>
              rw [hups] at h
              obtain ⟨store', doc⟩ := p
              dsimp only at h
              have hpair := Except.ok.inj h
              refine ⟨staff, client, store', rfl, rfl, any_eq_iff_mem.mp hmem, ?_, ?_⟩
              · have hdoc : doc = rec := congrArg Prod.snd hpair
                subst hdoc
                exact hups ▸ rfl
              · exact (congrArg Prod.fst hpair).symm
          · rw [if_pos (by
              simp only [Bool.not_eq_true', List.any_eq_false, decide_eq_true_eq]
              intro x hx he
              exact hmem (any_eq_iff_mem.mpr (he ▸ hx)))] at h
            exact absurd h (by simp)

theorem upsertDelivery_ok_parts {store : List DeliveryRecord}
    {f : DeliveryRecord → Bool} {s : DeliveryRecord → DeliveryRecord}
    {fr : DeliveryRecord} {store' : List DeliveryRecord} {doc : DeliveryRecord}
    (h : upsertDelivery store f s fr = .ok (store', doc)) :
    store' = (upsertCore f s fr store).1 ∧ doc = (upsertCore f s fr store).2 := by
  unfold upsertDelivery at h
  rcases hu : upsertCore f s fr store with ⟨cand, d⟩
  rw [hu] at h
  dsimp only at h
  by_cases hd : hasDupKey cand = true
  · rw [if_pos hd] at h; exact absurd h (by simp)
  · rw [if_neg hd] at h
    have := Except.ok.inj h
    exact ⟨(congrArg Prod.fst this).symm, (congrArg Prod.snd this).symm⟩

/-- A fixture for the delivery-recording claims: staff 1 with client 2
assigned (quantity 5, price-per-litre 10), no delivery records yet. -/
def stMark : State :=
  { staffs := [⟨1, [2], "AM"⟩],
    clients := [⟨2, "AM", 5, 10, "Pending", none, [], some 1⟩],
    sessions := [], deliveries := [] }

/-- C6: a successful `recordDelivered` call writes a DeliveryRecord with
status Delivered, quantity = the client's daily quantity, price =
quantity × price-per-litre, and appends exactly one history entry with that
quantity to the client document. -/
theorem recordDelivered_fields
    (st : State) (staffId clientId : Nat) (shift : String) (today : Nat)
    (st' : State) (rec : DeliveryRecord) (client : Client)
    (hfc : st.clients.find? (fun c => c.id = clientId) = some client)
    (h : markClientDailyDelivered st staffId clientId shift today = .ok (st', rec)) :
    rec.deliveryStatus = "Delivered" ∧
    rec.quantity = client.quantity ∧
    rec.price = client.quantity * client.pricePerLitre ∧
    st'.clients.find? (fun c => c.id = clientId) = some (deliveredMirror today client) ∧
    (deliveredMirror today client).deliveryHistory
      = client.deliveryHistory ++ [⟨today, "Delivered", client.quantity, none⟩] := by
  obtain ⟨hsh, staff, client₀, store', hfs, hfc₀, hmem, hups, hst'⟩ := markDelivered_ok h
  have hceq : client₀ = client := Option.some.inj (hfc₀.symm.trans hfc)
  subst hceq
  have hparts := upsertDelivery_ok_parts hups
  have hrecfields : rec.deliveryStatus = "Delivered" ∧ rec.quantity = client₀.quantity ∧
      rec.price = client₀.quantity * client₀.pricePerLitre := by
    rcases @upsertCore_doc (markFilter clientId staffId today)
        (deliveredSetFields staffId clientId today shift client₀)
        (deliveredFresh staffId clientId today shift client₀) st.deliveries with
      hdoc | ⟨r₀, _, hdoc⟩
    · rw [hparts.2, hdoc]
      exact ⟨rfl, rfl, rfl⟩
    · rw [hparts.2, hdoc]
      exact ⟨rfl, rfl, rfl⟩
  refine ⟨hrecfields.1, hrecfields.2.1, hrecfields.2.2, ?_, rfl⟩
  rw [hst']
  show (setById Client.id st.clients (deliveredMirror today client₀)).find?
    (fun c => c.id = clientId) = some (deliveredMirror today client₀)
  have hid : client₀.id = clientId := find?_key_eq (k := Client.id) hfc₀
  exact find?_setById_self (k := Client.id) hfc₀
    (show Client.id (deliveredMirror today client₀) = clientId from hid)

/-- C6, witness: the concrete scenario of the spec — quantity 5, price 10,
the record gets quantity 5 and price 50 and the client one history entry. -/
theorem recordDelivered_fields_witness :
    (⟨2, 1, 100, "AM", "Delivered", 5, 50, none⟩ : DeliveryRecord).deliveryStatus = "Delivered" ∧
    (⟨2, 1, 100, "AM", "Delivered", 5, 50, none⟩ : DeliveryRecord).quantity = 5 ∧
    (⟨2, 1, 100, "AM", "Delivered", 5, 50, none⟩ : DeliveryRecord).price = 5 * 10 ∧
    (deliveredMirror 100 ⟨2, "AM", 5, 10, "Pending", none, [], some 1⟩).deliveryHistory
      = [⟨100, "Delivered", 5, none⟩] := by
  have h := recordDelivered_fields stMark 1 2 "AM" 100
    { staffs := [⟨1, [2], "AM"⟩],
      clients := [⟨2, "AM", 5, 10, "Delivered", none, [⟨100, "Delivered", 5, none⟩], some 1⟩],
      sessions := [],
      deliveries := [⟨2, 1, 100, "AM", "Delivered", 5, 50, none⟩] }
    ⟨2, 1, 100, "AM", "Delivered", 5, 50, none⟩
    ⟨2, "AM", 5, 10, "Pending", none, [], some 1⟩
    (by decide) (by decide)
  exact ⟨h.1, h.2.1, h.2.2.1, by rw [h.2.2.2.2]; decide⟩

/-- C7: on the assignment-aware path, `recordNotDelivered` rejects an empty
reason with InvalidInput; on success with no existing record for the
(client, day, shift) key, the written DeliveryRecord has status
Not Delivered, quantity 0, price 0 and note = reason, and the client
document mirrors status, note, and one appended history entry. -/
theorem recordNotDelivered_validation_and_creation :
    (∀ (st : State) (staffId clientId : Nat) (shift : String) (today : Nat),
      shift ≠ "" →
      markClientDailyUndelivered st staffId clientId shift "" today
        = .error .invalidInput) ∧
    (∀ (st : State) (staffId clientId : Nat) (shift reason : String) (today : Nat)
       (st' : State) (rec : DeliveryRecord) (client : Client),
      st.clients.find? (fun c => c.id = clientId) = some client →
      (∀ r ∈ st.deliveries,
        ¬(r.clientId = clientId ∧ r.date = today ∧ r.shift = shift)) →
      markClientDailyUndelivered st staffId clientId shift reason today
        = .ok (st', rec) →
      rec = undeliveredFresh staffId clientId today shift reason ∧
      rec.deliveryStatus = "Not Delivered" ∧ rec.quantity = 0 ∧ rec.price = 0 ∧
      rec.notes = some reason ∧
      st'.clients.find? (fun c => c.id = clientId)
        = some (undeliveredMirror today reason client) ∧
      (undeliveredMirror today reason client).deliveryStatus = "Not Delivered" ∧
      (undeliveredMirror today reason client).deliveryNotes = some reason ∧
      (undeliveredMirror today reason client).deliveryHistory
        = client.deliveryHistory ++ [⟨today, "Not Delivered", 0, some reason⟩]) := by
  constructor
  · intro st staffId clientId shift today hsh
    unfold markClientDailyUndelivered
    rw [if_neg (by simpa using hsh)]
    rw [if_pos (by simp)]
  · intro st staffId clientId shift reason today st' rec client hfc _hkey h
    obtain ⟨hsh, hre, staff, client₀, store', hfs, hfc₀, hmem, hups, hst'⟩ :=
      markUndelivered_ok h
    have hceq : client₀ = client := Option.some.inj (hfc₀.symm.trans hfc)
    subst hceq
    have hparts := upsertDelivery_ok_parts hups
    have hrec : rec = undeliveredFresh staffId clientId today shift reason := by
      rcases @upsertCore_doc (markFilter clientId staffId today)
          (undeliveredSetFields staffId clientId today shift reason)
          (undeliveredFresh staffId clientId today shift reason)
          st.deliveries with hdoc | ⟨r₀, _, hdoc⟩
      · rw [hparts.2, hdoc]
      · rw [hparts.2, hdoc]
        rfl
    refine ⟨hrec, by rw [hrec]; rfl, by rw [hrec]; rfl, by rw [hrec]; rfl,
      by rw [hrec]; rfl, ?_, rfl, rfl, rfl⟩
    rw [hst']
    have hid : client₀.id = clientId := find?_key_eq (k := Client.id) hfc₀
    exact find?_setById_self (k := Client.id) hfc₀
      (show Client.id (undeliveredMirror today reason client₀) = clientId from hid)

/-- C7, witness: the spec scenario "gate locked" run on the fixture state,
plus the empty-reason rejection. -/
theorem recordNotDelivered_validation_and_creation_witness :
    markClientDailyUndelivered stMark 1 2 "AM" "" 100 = .error .invalidInput ∧
    (⟨2, 1, 100, "AM", "Not Delivered", 0, 0, some "gate locked"⟩ : DeliveryRecord)
      = undeliveredFresh 1 2 100 "AM" "gate locked" ∧
    (undeliveredMirror 100 "gate locked" ⟨2, "AM", 5, 10, "Pending", none, [], some 1⟩).deliveryHistory
      = [⟨100, "Not Delivered", 0, some "gate locked"⟩] := by
  have h₁ := recordNotDelivered_validation_and_creation.1 stMark 1 2 "AM" 100 (by decide)
  have h₂ := recordNotDelivered_validation_and_creation.2 stMark 1 2 "AM" "gate locked" 100
    { staffs := [⟨1, [2], "AM"⟩],
      clients := [⟨2, "AM", 5, 10, "Not Delivered", some "gate locked",
        [⟨100, "Not Delivered", 0, some "gate locked"⟩], some 1⟩],
      sessions := [],
      deliveries := [⟨2, 1, 100, "AM", "Not Delivered", 0, 0, some "gate locked"⟩] }
    ⟨2, 1, 100, "AM", "Not Delivered", 0, 0, some "gate locked"⟩
    ⟨2, "AM", 5, 10, "Pending", none, [], some 1⟩
    (by decide) (by decide) (by decide)
  exact ⟨h₁, h₂.1, by rw [h₂.2.2.2.2.2.2.2.2]; decide⟩

/-- C10: the assignment-aware upsert matches by (clientId, staffId, day),
not by the spec's (client, day, shift) key.  When a record for the key
already exists but was written by a different staff member, a second
staff's call misses the filter, attempts an insert, collides with the
unique (clientId, date, shift) index, and the operation fails instead of
updating the existing record in place. -/
theorem secondStaff_record_duplicateKey
    (st : State) (staffId clientId : Nat) (shift reason : String) (today : Nat)
    (staff : Staff) (r : DeliveryRecord)
    (hfs : st.staffs.find? (fun s => s.id = staffId) = some staff)
    (hfc : (st.clients.find? (fun c => c.id = clientId)).isSome = true)
    (hmem : clientId ∈ staff.assignedClients)
    (hsh : shift ≠ "") (hre : reason ≠ "")
    (hr : r ∈ st.deliveries) (hrc : r.clientId = clientId) (hrd : r.date = today)
    (hrsh : r.shift = shift) (hrs : r.staffId ≠ staffId)
    (hnofilter : ∀ x ∈ st.deliveries,
      ¬(x.clientId = clientId ∧ x.staffId = staffId ∧
        today ≤ x.date ∧ x.date < today + 1)) :
    markClientDailyDelivered st staffId clientId shift today
      = .error .duplicateKey ∧
    markClientDailyUndelivered st staffId clientId shift reason today
      = .error .duplicateKey := by
  obtain ⟨client, hfc'⟩ := Option.isSome_iff_exists.mp hfc
  have hfilterfalse : ∀ x ∈ st.deliveries,
      markFilter clientId staffId today x = false := by
    intro x hx
    by_contra hb
    have hb' : markFilter clientId staffId today x = true := by
      cases hmf : markFilter clientId staffId today x with
      | true => rfl
      | false => exact absurd hmf hb
    have := hnofilter x hx
    unfold markFilter at hb'
    simp only [Bool.and_eq_true, decide_eq_true_eq] at hb'
    exact this ⟨hb'.1.1, hb'.1.2, hb'.2.1, hb'.2.2⟩
  have hanymem : (staff.assignedClients.any (fun i => i = clientId)) = true :=
    any_eq_iff_mem.mpr hmem
  constructor
  · have hups : upsertDelivery st.deliveries (markFilter clientId staffId today)
        (deliveredSetFields staffId clientId today shift client)
        (deliveredFresh staffId clientId today shift client)
        = .error .duplicateKey := by
      unfold upsertDelivery
      rw [upsertCore_no_match hfilterfalse]
      have hdup : hasDupKey (st.deliveries ++
          [deliveredFresh staffId clientId today shift client]) = true :=
        hasDupKey_true_of_mem hr (sameKey_iff.mpr ⟨hrc.symm, hrd.symm, hrsh.symm⟩)
      simp only [hdup, if_true]
    unfold markClientDailyDelivered
    rw [if_neg (by simpa using hsh), hfs, hfc']
    dsimp only
    rw [if_neg (by simp [hanymem]), hups]
  · have hups : upsertDelivery st.deliveries (markFilter clientId staffId today)
        (undeliveredSetFields staffId clientId today shift reason)
        (undeliveredFresh staffId clientId today shift reason)
        = .error .duplicateKey := by
      unfold upsertDelivery
      rw [upsertCore_no_match hfilterfalse]
      have hdup : hasDupKey (st.deliveries ++
          [undeliveredFresh staffId clientId today shift reason]) = true :=
        hasDupKey_true_of_mem hr (sameKey_iff.mpr ⟨hrc.symm, hrd.symm, hrsh.symm⟩)
      simp only [hdup, if_true]
    unfold markClientDailyUndelivered
    rw [if_neg (by simpa using hsh), if_neg (by simpa using hre), hfs, hfc']
    dsimp only
    rw [if_neg (by simp [hanymem]), hups]

/-- A fixture for the duplicate-key claim: the record for client 2, day
100, shift AM was written by staff 9; staff 1 now records for the same
key. -/
def stDup : State :=
  { staffs := [⟨1, [2], "AM"⟩],
    clients := [⟨2, "AM", 5, 10, "Pending", none, [], some 1⟩],
    sessions := [],
    deliveries := [⟨2, 9, 100, "AM", "Delivered", 5, 50, none⟩] }

/-- C10, witness: the duplicate-key failure on the concrete fixture. -/
theorem secondStaff_record_duplicateKey_witness :
    markClientDailyDelivered stDup 1 2 "AM" 100 = .error .duplicateKey ∧
    markClientDailyUndelivered stDup 1 2 "AM" "gate locked" 100
      = .error .duplicateKey :=
  secondStaff_record_duplicateKey stDup 1 2 "AM" "gate locked" 100
    ⟨1, [2], "AM"⟩ ⟨2, 9, 100, "AM", "Delivered", 5, 50, none⟩
    (by decide) (by decide) (by decide) (by decide) (by decide) (by decide)
    (by decide) (by decide) (by decide) (by decide) (by decide)

/-- Number of stored DeliveryRecords for one (client, day, shift) key. -/
def countKey (store : List DeliveryRecord) (clientId day : Nat) (shift : String) : Nat :=
  (store.filter (fun r => r.clientId = clientId && r.date = day && r.shift = shift)).length

/-- `n` consecutive `markClientDailyDelivered` calls with the same
arguments, stopping at the first error. -/
def iterMarkDelivered (staffId clientId : Nat) (shift : String) (today : Nat) :
    Nat → State → Except ApiError State
  | 0, st => .ok st
  | n + 1, st =>
    match markClientDailyDelivered st staffId clientId shift today with
    | .ok (st', _) => iterMarkDelivered staffId clientId shift today n st'
    | .error e => .error e

/-- One `markClientDailyDelivered` call from a state whose store is either
the clean store `D` (no record for this client today) or `D` plus exactly
the record this call maintains: the call succeeds, writes that record
(inserting it or updating it in place to identical contents), and the rest
of the store is untouched. -/
theorem markDelivered_step
    (st : State) {staffId clientId : Nat} {shift : String} {today : Nat}
    {staff : Staff} {cl : Client} {q p : Nat} (D : List DeliveryRecord)
    (hsh : shift ≠ "")
    (hfs : st.staffs.find? (fun s => s.id = staffId) = some staff)
    (hmem : clientId ∈ staff.assignedClients)
    (hfc : st.clients.find? (fun c => c.id = clientId) = some cl)
    (hq : cl.quantity = q) (hp : cl.pricePerLitre = p)
    (hclean : ∀ r ∈ D, ¬(r.clientId = clientId ∧ r.date = today))
    (hnodup : hasDupKey D = false)
    (hdel : st.deliveries = D ∨
      st.deliveries = D ++ [⟨clientId, staffId, today, shift, "Delivered", q, q * p, none⟩]) :
    markClientDailyDelivered st staffId clientId shift today
      = .ok ({ st with
               deliveries := D ++
                 [⟨clientId, staffId, today, shift, "Delivered", q, q * p, none⟩],
               clients := setById Client.id st.clients (deliveredMirror today cl) },
             ⟨clientId, staffId, today, shift, "Delivered", q, q * p, none⟩) := by
  have hfilterD : ∀ r ∈ D, markFilter clientId staffId today r = false := by
    intro r hr
    cases hmf : markFilter clientId staffId today r with
    | false => rfl
    | true =>
      exfalso
      unfold markFilter at hmf
      simp only [Bool.and_eq_true, decide_eq_true_eq] at hmf
      exact hclean r hr ⟨hmf.1.1, by omega⟩
  have hfreshQ : deliveredFresh staffId clientId today shift cl
      = ⟨clientId, staffId, today, shift, "Delivered", q, q * p, none⟩ := by
    unfold deliveredFresh
    rw [hq, hp]
  have hsetQ : deliveredSetFields staffId clientId today shift cl
      ⟨clientId, staffId, today, shift, "Delivered", q, q * p, none⟩
      = ⟨clientId, staffId, today, shift, "Delivered", q, q * p, none⟩ := by
    unfold deliveredSetFields
    rw [hq, hp]
  have hnodupQ : hasDupKey
      (D ++ [⟨clientId, staffId, today, shift, "Delivered", q, q * p, none⟩]) = false := by
    apply hasDupKey_append_false hnodup
    intro x hx
    cases hk : sameKey ⟨clientId, staffId, today, shift, "Delivered", q, q * p, none⟩ x with
    | false => rfl
    | true =>
      exfalso
      rcases sameKey_iff.mp hk with ⟨h₁, h₂, _⟩
      exact hclean x hx ⟨h₁.symm, h₂.symm⟩
  have hfilterQ : markFilter clientId staffId today
      ⟨clientId, staffId, today, shift, "Delivered", q, q * p, none⟩ = true := by
    simp [markFilter]
  have hups : upsertDelivery st.deliveries (markFilter clientId staffId today)
      (deliveredSetFields staffId clientId today shift cl)
      (deliveredFresh staffId clientId today shift cl)
      = .ok (D ++ [⟨clientId, staffId, today, shift, "Delivered", q, q * p, none⟩],
             ⟨clientId, staffId, today, shift, "Delivered", q, q * p, none⟩) := by
    rcases hdel with hdel | hdel
    · unfold upsertDelivery
      rw [hdel, upsertCore_no_match hfilterD]
      dsimp only
      rw [hfreshQ, hnodupQ]
      rfl
    · unfold upsertDelivery
      rw [hdel, upsertCore_match_after D _ [] hfilterD hfilterQ]
      dsimp only
      rw [hsetQ, hnodupQ]
      rfl
  have hany : (staff.assignedClients.any (fun i => i = clientId)) = true :=
    any_eq_iff_mem.mpr hmem
  unfold markClientDailyDelivered
  rw [if_neg (by simpa using hsh), hfs, hfc]
  dsimp only
  rw [if_neg (by simp [hany]), hups]

/-- C2: at most one DeliveryRecord per (client, day, shift), maintained by
repeated `recordDelivered` calls — starting from a store with no record for
this client today and no duplicate keys, N+1 repeated calls all succeed and
leave the record count for the key at exactly 1. -/
theorem repeated_recordDelivered_single_record
    (st : State) (staffId clientId : Nat) (shift : String) (today : Nat)
    (staff : Staff) (client : Client)
    (hsh : shift ≠ "")
    (hfs : st.staffs.find? (fun s => s.id = staffId) = some staff)
    (hmem : clientId ∈ staff.assignedClients)
    (hfc : st.clients.find? (fun c => c.id = clientId) = some client)
    (hclean : ∀ r ∈ st.deliveries, ¬(r.clientId = clientId ∧ r.date = today))
    (hnodup : hasDupKey st.deliveries = false) :
    ∀ N : Nat, ∃ st',
      iterMarkDelivered staffId clientId shift today (N + 1) st = .ok st' ∧
      countKey st'.deliveries clientId today shift = 1 := by
  have aux : ∀ n (st₁ : State) (cl₁ : Client),
      st₁.staffs.find? (fun s => s.id = staffId) = some staff →
      st₁.clients.find? (fun c => c.id = clientId) = some cl₁ →
      cl₁.quantity = client.quantity → cl₁.pricePerLitre = client.pricePerLitre →
      st₁.deliveries = st.deliveries ++
        [⟨clientId, staffId, today, shift, "Delivered",
          client.quantity, client.quantity * client.pricePerLitre, none⟩] →
      ∃ st₂, iterMarkDelivered staffId clientId shift today n st₁ = .ok st₂ ∧
        st₂.deliveries = st.deliveries ++
          [⟨clientId, staffId, today, shift, "Delivered",
            client.quantity, client.quantity * client.pricePerLitre, none⟩] := by
    intro n
    induction n with
    | zero =>
      intro st₁ cl₁ _ _ _ _ hdel
      exact ⟨st₁, rfl, hdel⟩
    | succ k ih =>
      intro st₁ cl₁ hfs₁ hfc₁ hq₁ hp₁ hdel
      have hstep := markDelivered_step st₁ st.deliveries hsh hfs₁ hmem hfc₁
        hq₁ hp₁ hclean hnodup (Or.inr hdel)
      have hfind : (setById Client.id st₁.clients (deliveredMirror today cl₁)).find?
          (fun c => c.id = clientId) = some (deliveredMirror today cl₁) := by
        have hid : cl₁.id = clientId := find?_key_eq (k := Client.id) hfc₁
        exact find?_setById_self (k := Client.id) hfc₁
          (show Client.id (deliveredMirror today cl₁) = clientId from hid)
      obtain ⟨st₃, hiter, hdel₃⟩ := ih
        { st₁ with
          deliveries := st.deliveries ++
            [⟨clientId, staffId, today, shift, "Delivered",
              client.quantity, client.quantity * client.pricePerLitre, none⟩],
          clients := setById Client.id st₁.clients (deliveredMirror today cl₁) }
        (deliveredMirror today cl₁) hfs₁ hfind hq₁ hp₁ rfl
      refine ⟨st₃, ?_, hdel₃⟩
      show (match markClientDailyDelivered st₁ staffId clientId shift today with
        | .ok (st', _) => iterMarkDelivered staffId clientId shift today k st'
        | .error e => .error e) = .ok st₃
      rw [hstep]
      exact hiter
  intro N
  have hstep := markDelivered_step st st.deliveries hsh hfs hmem hfc
    rfl rfl hclean hnodup (Or.inl rfl)
  have hfind : (setById Client.id st.clients (deliveredMirror today client)).find?
      (fun c => c.id = clientId) = some (deliveredMirror today client) := by
    have hid : client.id = clientId := find?_key_eq (k := Client.id) hfc
    exact find?_setById_self (k := Client.id) hfc
      (show Client.id (deliveredMirror today client) = clientId from hid)
  obtain ⟨st₂, hiter, hdel₂⟩ := aux N
    { st with
      deliveries := st.deliveries ++
        [⟨clientId, staffId, today, shift, "Delivered",
          client.quantity, client.quantity * client.pricePerLitre, none⟩],
      clients := setById Client.id st.clients (deliveredMirror today client) }
    (deliveredMirror today client) hfs hfind rfl rfl rfl
  refine ⟨st₂, ?_, ?_⟩
  · show (match markClientDailyDelivered st staffId clientId shift today with
      | .ok (st', _) => iterMarkDelivered staffId clientId shift today N st'
      | .error e => .error e) = .ok st₂
    rw [hstep]
    exact hiter
  · rw [hdel₂]
    unfold countKey
    rw [List.filter_append]
    have hD : st.deliveries.filter
        (fun r => r.clientId = clientId && r.date = today && r.shift = shift) = [] := by
      apply List.filter_eq_nil_iff.mpr
      intro r hr
      simp only [Bool.and_eq_true, decide_eq_true_eq, not_and]
      intro h₁ _
      exact absurd h₁ (hclean r hr)
    rw [hD]
    simp

/-- C2, witness: three repeated calls on the fixture state leave exactly
one record for (client 2, day 100, shift AM). -/
theorem repeated_recordDelivered_single_record_witness :
    ∃ st', iterMarkDelivered 1 2 "AM" 100 (2 + 1) stMark = .ok st' ∧
      countKey st'.deliveries 2 100 "AM" = 1 :=
  repeated_recordDelivered_single_record stMark 1 2 "AM" 100
    ⟨1, [2], "AM"⟩ ⟨2, "AM", 5, 10, "Pending", none, [], some 1⟩
    (by decide) (by decide) (by decide) (by decide)
    (by intro r hr; simp [stMark] at hr) (by decide) 2

/-- Upserting the session for (staffId, today) into a store holding at most
one session for that key leaves exactly one, the new one. -/
theorem upsertSession_filter {staffId today : Nat} {shift : String}
    {sessions : List ShiftSession}
    (hcount : (sessions.filter
      (fun x => x.staffId = staffId && x.date = today)).length ≤ 1) :
    (upsertSession staffId today shift sessions).filter
      (fun x => x.staffId = staffId && x.date = today)
      = [⟨staffId, today, shift⟩] := by
  induction sessions with
  | nil =>
    show List.filter _ [(⟨staffId, today, shift⟩ : ShiftSession)] = _
    rw [List.filter_cons]
    simp
  | cons x rest ih =>
    by_cases hx : (x.staffId = staffId && x.date = today) = true
    · show List.filter _ (if (x.staffId = staffId && x.date = today) = true
        then (⟨staffId, today, shift⟩ : ShiftSession) :: rest
        else x :: upsertSession staffId today shift rest) = _
      rw [if_pos hx, List.filter_cons]
      have hrest : rest.filter (fun x => x.staffId = staffId && x.date = today) = [] := by
        rw [List.filter_cons, if_pos hx] at hcount
        have : (rest.filter (fun x => x.staffId = staffId && x.date = today)).length = 0 := by
          simpa using hcount
        exact List.eq_nil_of_length_eq_zero this
      simp [hrest]
    · show List.filter _ (if (x.staffId = staffId && x.date = today) = true
        then (⟨staffId, today, shift⟩ : ShiftSession) :: rest
        else x :: upsertSession staffId today shift rest) = _
      rw [if_neg hx, List.filter_cons, if_neg hx]
      apply ih
      rw [List.filter_cons, if_neg hx] at hcount
      exact hcount

/-- C9: selecting shift "AM" and then "PM" on the same day leaves exactly
one ShiftSession for that (staff, day) key, with shift "PM" — the upsert
keyed on (staffId, today at midnight) overwrites instead of duplicating. -/
theorem selectShift_AM_then_PM
    (st : State) (staffId : Nat) (validShifts : List String) (today : Nat)
    (hAM : validShifts.contains "AM" = true)
    (hPM : validShifts.contains "PM" = true)
    (hstaff : (st.staffs.find? (fun s => s.id = staffId)).isSome = true)
    (hcount : (st.sessions.filter
      (fun x => x.staffId = staffId && x.date = today)).length ≤ 1) :
    ∃ st₁ st₂,
      selectShift st staffId "AM" validShifts today = .ok (st₁, ⟨staffId, today, "AM"⟩) ∧
      selectShift st₁ staffId "PM" validShifts today = .ok (st₂, ⟨staffId, today, "PM"⟩) ∧
      st₂.sessions.filter (fun x => x.staffId = staffId && x.date = today)
        = [⟨staffId, today, "PM"⟩] := by
  obtain ⟨staff, hstaff'⟩ := Option.isSome_iff_exists.mp hstaff
  refine ⟨{ st with sessions := upsertSession staffId today "AM" st.sessions },
          { st with sessions :=
              upsertSession staffId today "PM" (upsertSession staffId today "AM" st.sessions) },
          ?_, ?_, ?_⟩
  · unfold selectShift
    rw [if_neg (by simp [List.elem_iff.mp hAM]), hstaff']
  · unfold selectShift
    rw [if_neg (by simp [List.elem_iff.mp hPM])]
    have : ({ st with sessions := upsertSession staffId today "AM" st.sessions } : State).staffs
        = st.staffs := rfl
    rw [this, hstaff']
  · show (upsertSession staffId today "PM"
      (upsertSession staffId today "AM" st.sessions)).filter
        (fun x => x.staffId = staffId && x.date = today) = _
    apply upsertSession_filter
    rw [upsertSession_filter hcount]
    simp

/-- C9, witness: the two selections on the fixture state with the settings
enumeration ["AM", "PM"]. -/
theorem selectShift_AM_then_PM_witness :
    ∃ st₁ st₂,
      selectShift stMark 1 "AM" ["AM", "PM"] 100 = .ok (st₁, ⟨1, 100, "AM"⟩) ∧
      selectShift st₁ 1 "PM" ["AM", "PM"] 100 = .ok (st₂, ⟨1, 100, "PM"⟩) ∧
      st₂.sessions.filter (fun x => x.staffId = 1 && x.date = 100) = [⟨1, 100, "PM"⟩] :=
  selectShift_AM_then_PM stMark 1 ["AM", "PM"] 100
    (by decide) (by decide) (by decide) (by decide)

/-- C5: the success-rate computation counts the records in range and those
with status Delivered; it returns delivered/total·100 when total > 0 and
exactly 0 (a plain number, not an error value) when total = 0. -/
theorem successRate_zero_guard (store : List DeliveryRecord) (startDate endDate : Nat) :
    (getDeliverySuccessRate store startDate endDate).total
      = (store.filter (inRange startDate endDate)).length ∧
    (getDeliverySuccessRate store startDate endDate).delivered
      = (store.filter (fun r =>
          inRange startDate endDate r && r.deliveryStatus = "Delivered")).length ∧
    ((getDeliverySuccessRate store startDate endDate).total = 0 →
      (getDeliverySuccessRate store startDate endDate).successRate = 0) ∧
    (0 < (getDeliverySuccessRate store startDate endDate).total →
      (getDeliverySuccessRate store startDate endDate).successRate
        = ((getDeliverySuccessRate store startDate endDate).delivered : ℚ)
            / ((getDeliverySuccessRate store startDate endDate).total : ℚ) * 100) := by
  unfold getDeliverySuccessRate
  refine ⟨rfl, rfl, ?_, ?_⟩
  · intro h0
    dsimp only at h0 ⊢
    rw [if_neg (by omega)]
  · intro hpos
    dsimp only at hpos ⊢
    rw [if_pos (by omega)]

/-- A one-record store with a Delivered record inside the query range,
shared by the aggregation claims. -/
def trendStore : List DeliveryRecord := [⟨1, 2, 10, "AM", "Delivered", 5, 50, none⟩]

/-- C5, witness: the guard applied to a nonempty store and to the empty
store. -/
theorem successRate_zero_guard_witness :
    (getDeliverySuccessRate trendStore 0 20).successRate
      = ((getDeliverySuccessRate trendStore 0 20).delivered : ℚ)
          / ((getDeliverySuccessRate trendStore 0 20).total : ℚ) * 100 ∧
    (getDeliverySuccessRate [] 0 20).successRate = 0 :=
  ⟨(successRate_zero_guard trendStore 0 20).2.2.2 (by decide),
   (successRate_zero_guard [] 0 20).2.2.1 (by decide)⟩

/-- C3, failing input: `getDeliveryTrends` counts "successful" deliveries
by comparing the status to the lowercase literal `"delivered"`, which the
schema enum (only `"Delivered"` / `"Not Delivered"`) never stores.  On a
store with one Delivered record in range, the bucket reports
totalDeliveries 1 but successfulDeliveries 0 and successRate 0, while the
store really holds one record with status Delivered. -/
theorem trends_lowercase_delivered_bug :
    (getDeliveryTrends trendStore dailyKey 0 20).map TrendBucket.totalDeliveries = [1] ∧
    (getDeliveryTrends trendStore dailyKey 0 20).map TrendBucket.successfulDeliveries = [0] ∧
    (getDeliveryTrends trendStore dailyKey 0 20).map TrendBucket.successRate = [0] ∧
    (trendStore.filter (fun r =>
      inRange 0 20 r && r.deliveryStatus = "Delivered")).length = 1 := by
  refine ⟨by decide, by decide, ?_, by decide⟩
  show [(if (1 : Nat) = 0 then (0 : ℚ) else ((0 : Nat) : ℚ) / ((1 : Nat) : ℚ)) * 100] = [0]
  norm_num

/-- C4, failing input: `getNonDeliveryReasons` matches the status against
the literal `"not_delivered"`, which is never stored.  On a store with one
Not-Delivered record carrying the non-empty note "gate locked", it returns
the empty tally although one qualifying record exists. -/
theorem nonDeliveryReasons_snakecase_bug :
    getNonDeliveryReasons
      [⟨1, 2, 10, "AM", "Not Delivered", 0, 0, some "gate locked"⟩] 0 20 = [] ∧
    (([⟨1, 2, 10, "AM", "Not Delivered", 0, 0, some "gate locked"⟩]
        : List DeliveryRecord).filter (fun r =>
      inRange 0 20 r && r.deliveryStatus = "Not Delivered" &&
        (match r.notes with | some n => n ≠ "" | none => false))).length = 1 := by
  constructor
  · decide
  · decide
